import Mathlib

/-!
Verification development for the drl-btc-cloud repository.

The definitions below are shallow embeddings of the position/equity
simulation engine (`src/btc_env.py`, class `BTCTradingEnv`), the live
paper-trading equity update (`src/app/main.py`, `trading_tick`), the
minute-bucketed decision ledger (`src/app/main.py`,
`TradingDecisionLogger.log_decision`, and `src/app/main_simple.py`,
`log_decision`), and the episode start-index selection of the two
`reset` implementations.  Machine floats of the source are modelled as
rationals; a Python expression that raises (`ZeroDivisionError` on a
plain-float division, `json.JSONDecodeError`, an I/O error) is modelled
as an `Except` error, while a NumPy-scalar division by zero — which
emits a `RuntimeWarning` and produces `inf`/`-inf`/`nan` instead of
raising — is modelled by the non-finite constructor of `NpVal`.
-/

namespace DrlBtc

/-- Environment construction parameters of `BTCTradingEnv.__init__`
(`src/btc_env.py` lines 20-38): `initial_balance`, `fee_rate`, and the
length of the loaded data series. -/
structure EnvParams where
  initialBalance : ℚ
  feeRate : ℚ
  dataLength : Nat
deriving DecidableEq

/-- Mutable state of `BTCTradingEnv` (`src/btc_env.py` lines 53-60):
`current_step`, `position`, `equity`, `peak_equity`, `total_trades`,
`total_fees`. -/
structure EnvState where
  currentStep : Nat
  position : ℚ
  equity : ℚ
  peakEquity : ℚ
  totalTrades : Nat
  totalFees : ℚ
deriving DecidableEq

/-- Runtime failure of a step: a Python `ZeroDivisionError` raised by a
plain-float division with zero divisor. -/
inductive StepErr where
  | divisionByZero
deriving DecidableEq

/-- Value of a NumPy scalar expression: either a finite value (modelled
exactly as a rational) or a non-finite result (`inf`, `-inf` or `nan`).
NumPy scalar division by zero produces a non-finite value with a
`RuntimeWarning` instead of raising, and a non-finite operand is
absorbing under the further arithmetic the source performs. -/
inductive NpVal where
  | fin (q : ℚ)
  | nonfin
deriving DecidableEq

/-- Return value of `BTCTradingEnv.step` (`src/btc_env.py` line 288):
the reward (a NumPy scalar, possibly non-finite), the two episode
flags, the `drawdown` entry of the info dict (absent — `none` — on the
data-exhausted early return of lines 219-220), and the post-step
state. -/
structure StepResult where
  reward : NpVal
  terminated : Bool
  truncated : Bool
  drawdown : Option ℚ
  state : EnvState
deriving DecidableEq

instance {ε α : Type} [DecidableEq ε] [DecidableEq α] :
    DecidableEq (Except ε α) := fun a b =>
  match a, b with
  | .error e, .error e' =>
      if h : e = e' then isTrue (by rw [h]) else isFalse (by intro hc; cases hc; exact h rfl)
  | .error _, .ok _ => isFalse (by intro hc; cases hc)
  | .ok _, .error _ => isFalse (by intro hc; cases hc)
  | .ok v, .ok v' =>
      if h : v = v' then isTrue (by rw [h]) else isFalse (by intro hc; cases hc; exact h rfl)

/-- Model of Python `abs` on rationals, written so that it evaluates by
kernel reduction. -/
def absQ (x : ℚ) : ℚ := if x < 0 then -x else x

/-- Model of `np.clip(x, lo, hi)` (`src/btc_env.py` line 223). -/
def clip (x lo hi : ℚ) : ℚ := min hi (max lo x)

/-- Constant `self.max_drawdown_allowed = 0.10` (`src/btc_env.py`
line 61). -/
def maxDrawdownAllowed : ℚ := 1/10

/-- Drawdown value reported in the info dict (`src/btc_env.py` line
285): `(peak - equity)/peak` when `peak > 0`, else `0.0`. -/
def infoDrawdown (peak equity : ℚ) : ℚ :=
  if 0 < peak then (peak - equity) / peak else 0

/-- Equity growth from the held position (`src/btc_env.py` lines
239-242): when the pre-update position is nonzero, multiply equity by
`1 + position * (next - current)/current`.  Both prices are plain
Python floats (built with `float(...)` in `_get_current_price`, line
187), so the division of line 240 raises `ZeroDivisionError` when
`current_price` is `0`. -/
def holdingUpdate (position equity currentPrice nextPrice : ℚ) :
    Except StepErr ℚ :=
  if position ≠ 0 then
    if currentPrice = 0 then .error .divisionByZero
    else .ok (equity * (1 + position * ((nextPrice - currentPrice) / currentPrice)))
  else .ok equity

/-- Reward computation (`src/btc_env.py` lines 252-257).  At this point
`self.position` is the just-committed `np.clip` result, a NumPy scalar,
and `trade_fee` is NumPy-scalar arithmetic as well, so these divisions
never raise: a zero `current_price` divisor of line 254, or a zero
`initial_balance` divisor of lines 255/257, yields a non-finite reward
(silently, with a `RuntimeWarning`).  With the post-update position
nonzero the reward is
`position * (next - current)/current - trade_fee/initial_balance`,
otherwise `-(trade_fee/initial_balance)`. -/
def rewardCalc (position tradeFee currentPrice nextPrice initialBalance : ℚ) :
    NpVal :=
  if position ≠ 0 then
    if currentPrice = 0 ∨ initialBalance = 0 then .nonfin
    else .fin (position * (nextPrice - currentPrice) / currentPrice -
          tradeFee / initialBalance)
  else
    if initialBalance = 0 then .nonfin
    else .fin (-(tradeFee / initialBalance))

/-- Position change of a step (`src/btc_env.py` lines 223-227):
`abs(target_position - position)` with the clamped action. -/
def positionChangeOf (s : EnvState) (action : ℚ) : ℚ :=
  absQ (clip action (-1) 1 - s.position)

/-- Trade fee of a step (`src/btc_env.py` line 228):
`position_change * current_price * fee_rate`. -/
def tradeFeeOf (p : EnvParams) (prices : Nat → ℚ) (s : EnvState) (action : ℚ) : ℚ :=
  positionChangeOf s action * prices s.currentStep * p.feeRate

/-- Peak-equity update (`src/btc_env.py` lines 249-250): raise the peak
when the new equity exceeds it. -/
def peakAfter (oldPeak newEquity : ℚ) : ℚ :=
  if newEquity > oldPeak then newEquity else oldPeak

/-- Termination flag of a step (`src/btc_env.py` lines 259-271): a
drawdown above `max_drawdown_allowed` (checked only when the updated
peak is positive) or equity at or below 10% of the initial balance. -/
def terminatedFlag (p : EnvParams) (newPeak newEquity : ℚ) : Bool :=
  decide ((0 < newPeak ∧ maxDrawdownAllowed < (newPeak - newEquity) / newPeak) ∨
          newEquity ≤ p.initialBalance * (1/10))

/-- Embedding of `BTCTradingEnv.step` (`src/btc_env.py` lines 217-288).
The price series is `prices` (the `close` column).  The early return of
lines 219-220 fires when `current_step >= data_length - 1` and leaves
the state untouched.  Otherwise the step clamps the action, charges the
trade fee, advances the cursor, applies the holding return with the
pre-update position, subtracts the fee as an absolute amount, commits
the new position, updates the peak, computes the reward from the
post-update position, and evaluates the termination and truncation
flags. -/
def step (p : EnvParams) (prices : Nat → ℚ) (s : EnvState) (action : ℚ) :
    Except StepErr StepResult :=
  if p.dataLength - 1 ≤ s.currentStep then
    .ok ⟨.fin 0, true, false, none, s⟩
  else
    match holdingUpdate s.position s.equity (prices s.currentStep)
        (prices (s.currentStep + 1)) with
    | .error e => .error e
    | .ok equityAfterReturn =>
      .ok ⟨rewardCalc (clip action (-1) 1) (tradeFeeOf p prices s action)
             (prices s.currentStep) (prices (s.currentStep + 1)) p.initialBalance,
           terminatedFlag p
             (peakAfter s.peakEquity (equityAfterReturn - tradeFeeOf p prices s action))
             (equityAfterReturn - tradeFeeOf p prices s action),
           decide (p.dataLength - 1 ≤ s.currentStep + 1),
           some (infoDrawdown
             (peakAfter s.peakEquity (equityAfterReturn - tradeFeeOf p prices s action))
             (equityAfterReturn - tradeFeeOf p prices s action)),
           ⟨s.currentStep + 1,
            clip action (-1) 1,
            equityAfterReturn - tradeFeeOf p prices s action,
            peakAfter s.peakEquity (equityAfterReturn - tradeFeeOf p prices s action),
            (if positionChangeOf s action > 1/100 then s.totalTrades + 1
             else s.totalTrades),
            s.totalFees + tradeFeeOf p prices s action⟩⟩

/-- Live paper-trading equity update (`src/app/main.py` lines 533-540):
`current_equity *= (1 + current_position * price_return - position_change * 0.001)`
with `position_change = |target_position - current_position|`.  The fee
term is folded into the growth factor as a fraction of equity. -/
def liveEquityUpdate (equity position targetPosition priceReturn : ℚ) : ℚ :=
  equity * (1 + position * priceReturn - absQ (targetPosition - position) * (1/1000))

/-- Engine-side equity update extracted from `BTCTradingEnv.step`
(`src/btc_env.py` lines 239-245): multiply by the growth factor when the
pre-update position is nonzero, then subtract the trade fee as an
absolute amount. -/
def engineEquityUpdate (equity position priceReturn tradeFee : ℚ) : ℚ :=
  (if position ≠ 0 then equity * (1 + position * priceReturn) else equity) - tradeFee

/-- Failure of a ledger `record` call: a `json.JSONDecodeError` raised
while scanning an existing line, or an I/O error on the primary
append. -/
inductive LedgerErr where
  | parseError
  | ioError
deriving DecidableEq

/-- Minute bucket of a decision timestamp (`src/app/main.py` line 332):
`timestamp // 60 * 60`. -/
def bucketOf (t : Nat) : Nat := t / 60 * 60

/-- One nonblank line of a day partition file: `some t` is a line that
parses to a record with timestamp `t`; `none` is a malformed line on
which `json.loads` raises. -/
abbrev LedgerLine := Option Nat

/-- Idempotency scan of `log_decision` (`src/app/main.py` lines
334-344): walk the partition in order; a parsed record whose own bucket
equals the key stops the scan with `true`; a malformed line raises
`json.JSONDecodeError` (there is no per-line handler in the scan). -/
def scanBucket (b : Nat) : List LedgerLine → Except LedgerErr Bool
  | [] => .ok false
  | Option.some t :: rest =>
      if bucketOf t = b then .ok true else scanBucket b rest
  | Option.none :: _ => .error .parseError

/-- Embedding of `TradingDecisionLogger.log_decision` (`src/app/main.py`
lines 317-369) acting on one day partition.  `ioFail` models the
primary local append raising an `OSError`.  A found bucket makes the
call a no-op; a scan exception or a primary-write failure propagates to
the caller (the outer handler at lines 367-369 re-raises); otherwise the
record is appended as one line.  The best-effort GCS backup (lines
350-365) never affects the result and is not modelled. -/
def logDecision (ioFail : Bool) (ts : Nat) (p : List LedgerLine) :
    Except LedgerErr (List LedgerLine) :=
  match scanBucket (bucketOf ts) p with
  | .error e => .error e
  | .ok true => .ok p
  | .ok false =>
      if ioFail then .error .ioError else .ok (p ++ [Option.some ts])

/-- Count of lines in a partition that parse to a record in bucket
`b`. -/
def countBucket (b : Nat) (p : List LedgerLine) : Nat :=
  p.countP (fun l => match l with
    | Option.some t => decide (bucketOf t = b)
    | Option.none => false)

/-- All lines of a partition segment parse, and none falls in bucket
`b`. -/
def cleanNoMatch (b : Nat) (p : List LedgerLine) : Prop :=
  ∀ l ∈ p, ∃ t, l = Option.some t ∧ bucketOf t ≠ b

/-- Model of `np.random.randint(low, high)`: raises `ValueError` when
`high <= low`, else returns a value of `[low, high)` determined by the
draw `r`. -/
def randint (low high : Int) (r : Nat) : Option Int :=
  if high ≤ low then none else some (low + (r : Int) % (high - low))

/-- Episode start-index selection of `BTCTradingEnv.reset`
(`src/btc_env.py` lines 195-197): `max_start = data_length -
max_episode_steps - 1` and the index is
`np.random.randint(lookback, max(lookback + 1, max_start))`. -/
def resetStartIndex (lookback maxSteps dataLen : Nat) (r : Nat) : Option Int :=
  let maxStart : Int := (dataLen : Int) - maxSteps - 1
  randint lookback (max ((lookback : Int) + 1) maxStart) r

/-- Episode start-index selection of the training variant
`BTCTradingEnv.reset` (`src/train/btc_env.py` lines 136-141):
`max_start = data_length - max_episode_steps - lookback`; raise
`ValueError` when `max_start <= 0`, else `np.random.randint(lookback,
max_start)`. -/
def trainResetStartIndex (lookback maxSteps dataLen : Nat) (r : Nat) : Option Int :=
  let maxStart : Int := (dataLen : Int) - maxSteps - lookback
  if maxStart ≤ 0 then none else randint lookback maxStart r

/-- Embedding of `BTCTradingEnv._get_observation` (`src/btc_env.py`
lines 137-158) over the list of normalized feature rows.  When
`current_step < lookback`, the available rows `data[0 : step+1]` are
left-padded with repeats of their first row up to `lookback` rows;
otherwise the window is `data[step-lookback+1 : step+1]`.  The
defensive reshape of lines 172-181 is a no-op whenever the primary path
already yields `lookback` rows and is not modelled. -/
def getObservation {α : Type} [Inhabited α] (data : List α)
    (stepIdx lookback : Nat) : List α :=
  if stepIdx < lookback then
    let available := stepIdx + 1
    let realData := data.take available
    List.replicate (lookback - available) (realData.headD default) ++ realData
  else
    (data.drop (stepIdx + 1 - lookback)).take lookback

/-- Price series of the fee-deduction scenario of the spec: the current
candle closes at 100 and the next at 101. -/
def pricesA : Nat → ℚ := fun i => if i = 0 then 100 else 101

/-- Initial engine state of the fee-deduction scenario: flat position,
equity 1000. -/
def stateA : EnvState := ⟨0, 0, 1000, 1000, 0, 0⟩

/-- Parameters of the drawdown scenario: initial balance 1000, fee rate
0.001, 10 data rows. -/
def envB : EnvParams := ⟨1000, 1/1000, 10⟩

/-- Price series of the drawdown scenario: the price falls from 100 to
89, an 11% drop. -/
def pricesB : Nat → ℚ := fun i => if i ≤ 3 then 100 else 89

/-- State of the drawdown scenario: fully long at peak equity 1000. -/
def stateB : EnvState := ⟨3, 1, 1000, 1000, 0, 0⟩

/-- Degenerate price series that is zero everywhere. -/
def zeroPrices : Nat → ℚ := fun _ => 0

section Lemmas

lemma scanBucket_true_count {b : Nat} {p : List LedgerLine}
    (h : scanBucket b p = .ok true) : 0 < countBucket b p := by
  induction p with
  | nil => simp [scanBucket] at h
  | cons l rest ih =>
      match l with
      | Option.none => simp [scanBucket] at h
      | Option.some t =>
          by_cases hb : bucketOf t = b
          · simp [countBucket, hb]
          · rw [scanBucket, if_neg hb] at h
            have := ih h
            simpa [countBucket, hb] using this

lemma scanBucket_append_some {b : Nat} {p : List LedgerLine} (t : Nat)
    (h : scanBucket b p = .ok false) :
    scanBucket b (p ++ [Option.some t]) =
      if bucketOf t = b then Except.ok true else Except.ok false := by
  induction p with
  | nil => simp [scanBucket]
  | cons l rest ih =>
      match l with
      | Option.none => simp [scanBucket] at h
      | Option.some u =>
          by_cases hb : bucketOf u = b
          · rw [scanBucket, if_pos hb] at h
            simp at h
          · rw [scanBucket, if_neg hb] at h
            rw [List.cons_append, scanBucket, if_neg hb, ih h]

lemma countBucket_append_some (b : Nat) (p : List LedgerLine) (t : Nat) :
    countBucket b (p ++ [Option.some t]) =
      countBucket b p + (if bucketOf t = b then 1 else 0) := by
  unfold countBucket
  rw [List.countP_append]
  congr 1
  by_cases hb : bucketOf t = b <;> simp [List.countP_cons, hb]

lemma scanBucket_clean {b : Nat} {p : List LedgerLine}
    (h : cleanNoMatch b p) : scanBucket b p = .ok false := by
  induction p with
  | nil => rfl
  | cons l rest ih =>
      obtain ⟨t, hl, hne⟩ := h l (List.mem_cons_self l rest)
      subst hl
      rw [scanBucket, if_neg hne]
      exact ih (fun x hx => h x (List.mem_cons_of_mem _ hx))

lemma scanBucket_clean_bad {b : Nat} {p1 : List LedgerLine}
    (p2 : List LedgerLine) (h : cleanNoMatch b p1) :
    scanBucket b (p1 ++ Option.none :: p2) = .error .parseError := by
  induction p1 with
  | nil => rfl
  | cons l rest ih =>
      obtain ⟨t, hl, hne⟩ := h l (List.mem_cons_self l rest)
      subst hl
      rw [List.cons_append, scanBucket, if_neg hne]
      exact ih (fun x hx => h x (List.mem_cons_of_mem _ hx))

end Lemmas

/-- Claim C1: in the scenario `position=0, target=1, current_price=100,
next_price=101, fee_rate=0.001, equity=1000`, `step` charges
`trade_fee = 0.1`, updates equity to `999.9` (holding return with the
pre-update position, fee subtracted as an absolute amount) and returns
`reward = 0.01 - 0.1/initial_balance`; and whenever the post-update
(clamped) position is exactly `0`, the reward is
`-(trade_fee/initial_balance)`. -/
theorem c1_fee_scenario :
    (∀ b : ℚ, 0 < b →
       ∃ r, step ⟨b, 1/1000, 10⟩ pricesA stateA 1 = .ok r ∧
         r.state.totalFees = 1/10 ∧ r.state.equity = 9999/10 ∧
         r.reward = .fin (1/100 - (1/10)/b)) ∧
    (∀ (p : EnvParams) (prices : Nat → ℚ) (s : EnvState) (a : ℚ),
       clip a (-1) 1 = 0 → p.initialBalance ≠ 0 →
       (s.position = 0 ∨ prices s.currentStep ≠ 0) →
       ¬ (p.dataLength - 1 ≤ s.currentStep) →
       ∃ r, step p prices s a = .ok r ∧
         r.reward = .fin (-(absQ (clip a (-1) 1 - s.position) *
           prices s.currentStep * p.feeRate / p.initialBalance))) := by
  constructor
  · intro b hb
    have hb' : b ≠ 0 := ne_of_gt hb
    have hh : holdingUpdate stateA.position stateA.equity (pricesA stateA.currentStep)
        (pricesA (stateA.currentStep + 1)) = .ok 1000 := by
      norm_num [holdingUpdate, stateA, pricesA]
    have hfee : tradeFeeOf ⟨b, 1/1000, 10⟩ pricesA stateA 1 = 1/10 := by
      norm_num [tradeFeeOf, positionChangeOf, stateA, pricesA, clip, absQ]
    have hr : rewardCalc (clip 1 (-1) 1) (tradeFeeOf ⟨b, 1/1000, 10⟩ pricesA stateA 1)
        (pricesA stateA.currentStep) (pricesA (stateA.currentStep + 1)) b =
        .fin (1/100 - (1/10)/b) := by
      rw [hfee]
      norm_num [rewardCalc, stateA, pricesA, clip, hb']
    unfold step
    rw [if_neg (by norm_num [stateA])]
    rw [hh, hr]
    refine ⟨_, rfl, ?_, ?_, rfl⟩
    · norm_num [stateA, tradeFeeOf, positionChangeOf, pricesA, clip, absQ]
    · norm_num [tradeFeeOf, positionChangeOf, stateA, pricesA, clip, absQ]
  · intro p prices s a hclip hinit hpos hrun
    have hr : rewardCalc (clip a (-1) 1) (tradeFeeOf p prices s a)
        (prices s.currentStep) (prices (s.currentStep + 1)) p.initialBalance =
        .fin (-(tradeFeeOf p prices s a / p.initialBalance)) := by
      unfold rewardCalc
      rw [if_neg (by simp [hclip]), if_neg hinit]
    unfold step
    rw [if_neg hrun]
    rcases hpos with hp0 | hcur
    · have hh : holdingUpdate s.position s.equity (prices s.currentStep)
          (prices (s.currentStep + 1)) = .ok s.equity := by
        unfold holdingUpdate
        rw [if_neg (by simp [hp0])]
      rw [hh, hr]
      exact ⟨_, rfl, rfl⟩
    · by_cases hp0 : s.position = 0
      · have hh : holdingUpdate s.position s.equity (prices s.currentStep)
            (prices (s.currentStep + 1)) = .ok s.equity := by
          unfold holdingUpdate
          rw [if_neg (by simp [hp0])]
        rw [hh, hr]
        exact ⟨_, rfl, rfl⟩
      · have hh : holdingUpdate s.position s.equity (prices s.currentStep)
            (prices (s.currentStep + 1)) =
            .ok (s.equity * (1 + s.position *
              ((prices (s.currentStep + 1) - prices s.currentStep) /
                prices s.currentStep))) := by
          unfold holdingUpdate
          rw [if_pos hp0, if_neg hcur]
        rw [hh, hr]
        exact ⟨_, rfl, rfl⟩

/-- Witness for C1: the scenario evaluated at the default initial
balance 10000. -/
theorem c1_witness :
    ∃ r, step ⟨10000, 1/1000, 10⟩ pricesA stateA 1 = .ok r ∧
      r.state.totalFees = 1/10 ∧ r.state.equity = 9999/10 ∧
      r.reward = .fin (1/100 - (1/10)/10000) := by
  exact c1_fee_scenario.1 10000 (by norm_num)

/-- Claim C2: two `record` calls whose decision timestamps share a
minute bucket collapse to one partition line — the second call is a
no-op (its scan finds the record written or found by the first), and if
the bucket was fresh the partition holds exactly one line for it. -/
theorem c2_ledger_idempotent (io1 io2 : Bool) (ts1 ts2 : Nat)
    (p p' : List LedgerLine)
    (hb : bucketOf ts1 = bucketOf ts2)
    (h1 : logDecision io1 ts1 p = .ok p') :
    logDecision io2 ts2 p' = .ok p' ∧
      (countBucket (bucketOf ts1) p = 0 → countBucket (bucketOf ts1) p' = 1) := by
  unfold logDecision at h1 ⊢
  cases hscan : scanBucket (bucketOf ts1) p with
  | error e => rw [hscan] at h1; cases h1
  | ok found =>
      cases found with
      | true =>
          rw [hscan] at h1
          have hpp : p' = p := by cases h1; rfl
          subst hpp
          rw [← hb, hscan]
          refine ⟨rfl, ?_⟩
          intro h0
          have := scanBucket_true_count hscan
          omega
      | false =>
          rw [hscan] at h1
          cases hio : io1 with
          | true => rw [hio] at h1; simp at h1
          | false =>
              rw [hio] at h1
              have hpp : p' = p ++ [Option.some ts1] := by cases h1; rfl
              subst hpp
              have hs2 := scanBucket_append_some ts1 hscan
              rw [← hb, hs2, if_pos rfl]
              refine ⟨rfl, ?_⟩
              intro h0
              rw [countBucket_append_some, if_pos rfl, h0]

/-- Witness for C2: timestamps 60 and 90 share bucket 60; recording both
on an empty partition leaves exactly the one line for timestamp 60. -/
theorem c2_witness :
    bucketOf 60 = bucketOf 90 ∧
    logDecision false 60 [] = .ok [Option.some 60] ∧
    logDecision false 90 [Option.some 60] = .ok [Option.some 60] ∧
    countBucket (bucketOf 60) [Option.some 60] = 1 := by
  have h1 : logDecision false 60 ([] : List LedgerLine) = .ok [Option.some 60] := by
    decide
  have hb : bucketOf 60 = bucketOf 90 := by decide
  have := c2_ledger_idempotent false false 60 90 [] [Option.some 60] hb h1
  exact ⟨hb, h1, this.1, this.2 (by decide)⟩

/-- Counterexample to C3: at equity 1000, position 0 → 1, prices
100 → 101, fee rate 0.001, the live update yields 999 while the engine
step yields 999.9 — the live path does not apply the engine's equity
rule. -/
theorem c3_counterexample :
    liveEquityUpdate 1000 0 1 (1/100) = 999 ∧
    step ⟨1000, 1/1000, 10⟩ pricesA stateA 1 =
      .ok ⟨.fin (99/10000), false, false, some (1/10000),
           ⟨1, 1, 9999/10, 1000, 1, 1/10⟩⟩ ∧
    (999 : ℚ) ≠ 9999/10 := by
  refine ⟨?_, ?_, by norm_num⟩
  · norm_num [liveEquityUpdate, absQ]
  · norm_num [step, holdingUpdate, rewardCalc, tradeFeeOf, positionChangeOf,
      peakAfter, terminatedFlag, infoDrawdown, maxDrawdownAllowed, clip, absQ,
      pricesA, stateA]

/-- Amended C3: the live tick folds the fee into the growth factor as an
equity-proportional term `position_change * 0.001`, so its equity update
agrees with the engine's absolute-fee rule exactly when
`position_change * (equity*0.001 - current_price*fee_rate) = 0`. -/
theorem c3_amended (equity position target priceReturn currentPrice feeRate : ℚ) :
    liveEquityUpdate equity position target priceReturn =
      engineEquityUpdate equity position priceReturn
        (absQ (target - position) * currentPrice * feeRate) ↔
    absQ (target - position) * (equity * (1/1000) - currentPrice * feeRate) = 0 := by
  unfold liveEquityUpdate engineEquityUpdate
  have hsplit : (if position ≠ 0 then equity * (1 + position * priceReturn)
      else equity) = equity * (1 + position * priceReturn) := by
    split_ifs with h
    · rfl
    · simp only [ne_eq, not_not] at h
      rw [h]
      ring
  rw [hsplit]
  constructor
  · intro h
    linear_combination -h
  · intro h
    linear_combination -h

/-- Claim C4: on a step that performs the equity update (data not yet
exhausted at entry) with a positive running peak, `terminated` is true
exactly when the post-update drawdown exceeds 0.10 or post-update
equity is at or below 10% of the initial balance, and `truncated` is
true exactly when the advanced cursor has exhausted the data. -/
theorem c4_termination_flags (p : EnvParams) (prices : Nat → ℚ) (s : EnvState)
    (a : ℚ) (r : StepResult)
    (hrun : ¬ (p.dataLength - 1 ≤ s.currentStep))
    (hpeak : 0 < s.peakEquity)
    (hok : step p prices s a = .ok r) :
    (r.terminated = true ↔
      (maxDrawdownAllowed <
         (r.state.peakEquity - r.state.equity) / r.state.peakEquity ∨
       r.state.equity ≤ p.initialBalance * (1/10))) ∧
    (r.truncated = true ↔ p.dataLength - 1 ≤ s.currentStep + 1) := by
  unfold step at hok
  rw [if_neg hrun] at hok
  cases hh : holdingUpdate s.position s.equity (prices s.currentStep)
      (prices (s.currentStep + 1)) with
  | error e => rw [hh] at hok; cases hok
  | ok equityAfterReturn =>
      rw [hh] at hok
      cases hok
      have hpeakPos : 0 < peakAfter s.peakEquity
          (equityAfterReturn - tradeFeeOf p prices s a) := by
        unfold peakAfter
        split_ifs with h
        · linarith
        · exact hpeak
      constructor
      · unfold terminatedFlag
        simp only [decide_eq_true_eq]
        simp [hpeakPos]
      · simp only [decide_eq_true_eq]

/-- Witness for C4: the 11% price drop of `pricesB` trips the drawdown
ceiling on exactly the step where the drop is realized. -/
theorem c4_witness :
    ∃ r, step envB pricesB stateB 1 = .ok r ∧
      ((r.terminated = true ↔
         (maxDrawdownAllowed <
            (r.state.peakEquity - r.state.equity) / r.state.peakEquity ∨
          r.state.equity ≤ envB.initialBalance * (1/10))) ∧
       (r.truncated = true ↔ envB.dataLength - 1 ≤ stateB.currentStep + 1)) ∧
      r.terminated = true := by
  have hok : step envB pricesB stateB 1 =
      .ok ⟨.fin (-(11/100) - 0), true, false, some (11/100),
           ⟨4, 1, 890, 1000, 0, 0⟩⟩ := by
    norm_num [step, holdingUpdate, rewardCalc, tradeFeeOf, positionChangeOf,
      peakAfter, terminatedFlag, infoDrawdown, maxDrawdownAllowed, clip, absQ,
      envB, pricesB, stateB]
  refine ⟨_, hok, c4_termination_flags envB pricesB stateB 1 _ (by decide)
    (by norm_num [stateB]) hok, rfl⟩

/-- Counterexample to C5: a partition consisting of one malformed line
makes the `record` call fail with the scan's parse error instead of
skipping the line and appending the well-formed decision. -/
theorem c5_counterexample :
    logDecision false 120 [Option.none] = .error .parseError ∧
    logDecision false 120 [Option.none] ≠ .ok [Option.none, Option.some 120] := by
  decide

/-- Amended C5: a malformed line reached by the idempotency scan aborts
the `record` call with a parse error and nothing is appended; when every
scanned line parses and none matches the bucket, the decision is
appended, and an I/O failure on the primary append propagates to the
caller. -/
theorem c5_amended :
    (∀ (io : Bool) (ts : Nat) (p1 p2 : List LedgerLine),
       cleanNoMatch (bucketOf ts) p1 →
       logDecision io ts (p1 ++ Option.none :: p2) = .error .parseError) ∧
    (∀ (ts : Nat) (p : List LedgerLine),
       cleanNoMatch (bucketOf ts) p →
       logDecision false ts p = .ok (p ++ [Option.some ts])) ∧
    (∀ (ts : Nat) (p : List LedgerLine),
       cleanNoMatch (bucketOf ts) p →
       logDecision true ts p = .error .ioError) := by
  refine ⟨?_, ?_, ?_⟩
  · intro io ts p1 p2 h
    unfold logDecision
    rw [scanBucket_clean_bad p2 h]
  · intro ts p h
    unfold logDecision
    rw [scanBucket_clean h]
    rfl
  · intro ts p h
    unfold logDecision
    rw [scanBucket_clean h]
    rfl

/-- Witness for C5: with one clean non-matching line present, a trailing
malformed line aborts the call, a clean partition accepts the append,
and a primary I/O failure propagates. -/
theorem c5_witness :
    logDecision false 120 [Option.some 30, Option.none] = .error .parseError ∧
    logDecision false 120 [Option.some 30] = .ok [Option.some 30, Option.some 120] ∧
    logDecision true 120 [Option.some 30] = .error .ioError := by
  have hclean : cleanNoMatch (bucketOf 120) [Option.some 30] := by
    intro l hl
    simp at hl
    exact ⟨30, by rw [hl], by decide⟩
  exact ⟨c5_amended.1 false 120 [Option.some 30] [] hclean,
         c5_amended.2.1 120 [Option.some 30] hclean,
         c5_amended.2.2 120 [Option.some 30] hclean⟩

/-- Counterexample to C6: with `lookback=5, max_episode_steps=10,
data_length=15` the claimed start range is empty, yet the root engine's
reset does not raise — it returns start index 5. -/
theorem c6_counterexample :
    ((15 : Int) - 10 - 1 < 5) ∧ resetStartIndex 5 10 15 0 = some 5 := by
  constructor
  · decide
  · decide

/-- Amended C6: the root engine's reset never fails; its start index
always lies in `[lookback, max(lookback+1, data_length -
max_episode_steps - 1))`, every index of the claimed half-open range is
reachable, the empty-range case degenerates to always selecting
`lookback`, and the `train/` variant instead raises exactly when
`data_length - max_episode_steps - lookback <= lookback`. -/
theorem c6_amended :
    (∀ (l m d r : Nat), ∃ i, resetStartIndex l m d r = some i ∧
       (l : Int) ≤ i ∧ i < max ((l : Int) + 1) ((d : Int) - m - 1)) ∧
    (∀ (l m d r : Nat), (d : Int) - m - 1 ≤ l →
       resetStartIndex l m d r = some (l : Int)) ∧
    (∀ (l m d : Nat) (j : Int), (l : Int) ≤ j → j < (d : Int) - m - 1 →
       ∃ r2, resetStartIndex l m d r2 = some j) ∧
    (∀ (l m d r : Nat), trainResetStartIndex l m d r = none ↔
       (d : Int) - m - l ≤ l) := by
  refine ⟨?_, ?_, ?_, ?_⟩
  · intro l m d r
    simp only [resetStartIndex, randint]
    have hlt : (l : Int) < max ((l : Int) + 1) ((d : Int) - m - 1) := by
      have := le_max_left ((l : Int) + 1) ((d : Int) - m - 1)
      omega
    rw [if_neg (not_le.mpr hlt)]
    refine ⟨_, rfl, ?_, ?_⟩
    · have := Int.emod_nonneg (r : Int) (by omega :
        max ((l : Int) + 1) ((d : Int) - m - 1) - l ≠ 0)
      omega
    · have := Int.emod_lt_of_pos (r : Int) (by omega :
        0 < max ((l : Int) + 1) ((d : Int) - m - 1) - l)
      omega
  · intro l m d r h
    simp only [resetStartIndex, randint]
    have hmax : max ((l : Int) + 1) ((d : Int) - m - 1) = (l : Int) + 1 :=
      max_eq_left (by omega)
    rw [hmax, if_neg (by omega)]
    have : ((l : Int) + 1 - l) = 1 := by omega
    rw [this, Int.emod_one]
    norm_num
  · intro l m d j hlj hjd
    refine ⟨(j - l).toNat, ?_⟩
    simp only [resetStartIndex, randint]
    have hlt : (l : Int) < max ((l : Int) + 1) ((d : Int) - m - 1) := by
      have := le_max_left ((l : Int) + 1) ((d : Int) - m - 1)
      omega
    rw [if_neg (not_le.mpr hlt)]
    have hcast : ((j - (l : Int)).toNat : Int) = j - l :=
      Int.toNat_of_nonneg (by omega)
    rw [hcast]
    have hub : j - (l : Int) < max ((l : Int) + 1) ((d : Int) - m - 1) - l := by
      have := le_max_right ((l : Int) + 1) ((d : Int) - m - 1)
      omega
    rw [Int.emod_eq_of_lt (by omega) hub]
    congr 1
    omega
  · intro l m d r
    simp only [trainResetStartIndex, randint]
    by_cases h1 : (d : Int) - m - l ≤ 0
    · rw [if_pos h1]
      simp
      omega
    · rw [if_neg h1]
      by_cases h2 : (d : Int) - m - l ≤ l
      · rw [if_pos h2]
        simp [h2]
      · rw [if_neg h2]
        simp [h2]

/-- Witness for C6: the empty-range case selects `lookback = 5` without
failing, index 50 of the claimed range is reachable for
`lookback=5, max_episode_steps=10, data_length=100`, and the training
variant raises on short data. -/
theorem c6_witness :
    resetStartIndex 5 10 15 3 = some 5 ∧
    (∃ r2, resetStartIndex 5 10 100 r2 = some 50) ∧
    trainResetStartIndex 5 10 20 0 = none := by
  refine ⟨c6_amended.2.1 5 10 15 3 (by decide),
          c6_amended.2.2.1 5 10 100 50 (by decide) (by decide),
          (c6_amended.2.2.2 5 10 20 0).mpr (by decide)⟩

/-- Claim C7: for any step index inside the data, the observation
window has exactly `lookback` rows, and when fewer than `lookback`
historical rows exist, the leading missing rows are all copies of the
earliest data row. -/
theorem c7_window {α : Type} [Inhabited α] (data : List α) (stepIdx lb : Nat)
    (h : stepIdx < data.length) :
    (getObservation data stepIdx lb).length = lb ∧
    (stepIdx < lb →
      (getObservation data stepIdx lb).take (lb - (stepIdx + 1)) =
        List.replicate (lb - (stepIdx + 1)) (data.headD default)) := by
  constructor
  · simp only [getObservation]
    split_ifs with hs
    · simp only [List.length_append, List.length_replicate, List.length_take]
      omega
    · simp only [List.length_take, List.length_drop]
      omega
  · intro hs
    simp only [getObservation]
    rw [if_pos hs]
    have hhead : (data.take (stepIdx + 1)).headD default = data.headD default := by
      cases data with
      | nil => simp at h
      | cons a l => rfl
    rw [hhead]
    have hlen : (List.replicate (lb - (stepIdx + 1)) (data.headD default)).length =
        lb - (stepIdx + 1) := List.length_replicate _ _
    rw [List.take_append_of_le_length (le_of_eq hlen.symm), List.take_replicate,
        Nat.min_self]

/-- Witness for C7: five candles of history with `lookback = 10` yield a
10-row window whose first five rows repeat candle 0. -/
theorem c7_witness :
    (4 : Nat) < ([(0 : ℚ), 1, 2, 3, 4]).length ∧
    (getObservation [(0 : ℚ), 1, 2, 3, 4] 4 10).length = 10 ∧
    (getObservation [(0 : ℚ), 1, 2, 3, 4] 4 10).take 5 = List.replicate 5 (0 : ℚ) := by
  have h := c7_window [(0 : ℚ), 1, 2, 3, 4] 4 10 (by decide)
  exact ⟨by decide, h.1, h.2 (by decide)⟩

/-- Counterexample to C8: with the current price equal to 0 but both the
pre-update position and the clamped target equal to 0, `step` performs
no division and returns a normal result instead of failing fast. -/
theorem c8_counterexample :
    zeroPrices stateA.currentStep = 0 ∧
    step ⟨1000, 1/1000, 10⟩ zeroPrices stateA 0 =
      .ok ⟨.fin 0, false, false, some 0, ⟨1, 0, 1000, 1000, 0, 0⟩⟩ := by
  refine ⟨rfl, ?_⟩
  norm_num [step, holdingUpdate, rewardCalc, tradeFeeOf, positionChangeOf,
    peakAfter, terminatedFlag, infoDrawdown, maxDrawdownAllowed, clip, absQ,
    zeroPrices, stateA]

/-- Amended C8: a zero current price makes `step` raise
`ZeroDivisionError` exactly when the pre-update position is nonzero
(line 240 divides plain Python floats); with pre-update position 0 and
the clamped target nonzero, the reward division of line 254 is NumPy
arithmetic, so `step` returns normally with a non-finite reward —
silent NaN propagation, not fail-fast; with both positions 0 no
division occurs at all and the reward is finite; and the drawdown
computation guards a non-positive peak by reporting drawdown 0. -/
theorem c8_amended :
    (∀ (p : EnvParams) (prices : Nat → ℚ) (s : EnvState) (a : ℚ),
       ¬ (p.dataLength - 1 ≤ s.currentStep) → prices s.currentStep = 0 →
       s.position ≠ 0 →
       step p prices s a = .error .divisionByZero) ∧
    (∀ (p : EnvParams) (prices : Nat → ℚ) (s : EnvState) (a : ℚ),
       ¬ (p.dataLength - 1 ≤ s.currentStep) → prices s.currentStep = 0 →
       s.position = 0 → clip a (-1) 1 ≠ 0 →
       ∃ r, step p prices s a = .ok r ∧ r.reward = .nonfin) ∧
    (∀ (p : EnvParams) (prices : Nat → ℚ) (s : EnvState) (a : ℚ),
       ¬ (p.dataLength - 1 ≤ s.currentStep) → prices s.currentStep = 0 →
       s.position = 0 → clip a (-1) 1 = 0 → p.initialBalance ≠ 0 →
       ∃ r, step p prices s a = .ok r ∧
         r.reward = .fin (-(tradeFeeOf p prices s a / p.initialBalance))) ∧
    (∀ equityVal : ℚ, infoDrawdown 0 equityVal = 0) ∧
    (∀ (p : EnvParams) (prices : Nat → ℚ) (s : EnvState) (a : ℚ) (r : StepResult),
       step p prices s a = .ok r → r.state.peakEquity ≤ 0 →
       (r.drawdown = none ∨ r.drawdown = some 0)) := by
  refine ⟨?_, ?_, ?_, ?_, ?_⟩
  · intro p prices s a hrun hzero hp0
    unfold step
    rw [if_neg hrun]
    have hh : holdingUpdate s.position s.equity (prices s.currentStep)
        (prices (s.currentStep + 1)) = .error .divisionByZero := by
      unfold holdingUpdate
      rw [if_pos hp0, if_pos hzero]
    rw [hh]
  · intro p prices s a hrun hzero hp0 htgt
    unfold step
    rw [if_neg hrun]
    have hh : holdingUpdate s.position s.equity (prices s.currentStep)
        (prices (s.currentStep + 1)) = .ok s.equity := by
      unfold holdingUpdate
      rw [if_neg (by simp [hp0])]
    rw [hh]
    have hr : rewardCalc (clip a (-1) 1) (tradeFeeOf p prices s a)
        (prices s.currentStep) (prices (s.currentStep + 1)) p.initialBalance =
        .nonfin := by
      unfold rewardCalc
      rw [if_pos htgt, if_pos (Or.inl hzero)]
    rw [hr]
    exact ⟨_, rfl, rfl⟩
  · intro p prices s a hrun hzero hp0 htgt hinit
    unfold step
    rw [if_neg hrun]
    have hh : holdingUpdate s.position s.equity (prices s.currentStep)
        (prices (s.currentStep + 1)) = .ok s.equity := by
      unfold holdingUpdate
      rw [if_neg (by simp [hp0])]
    rw [hh]
    have hr : rewardCalc (clip a (-1) 1) (tradeFeeOf p prices s a)
        (prices s.currentStep) (prices (s.currentStep + 1)) p.initialBalance =
        .fin (-(tradeFeeOf p prices s a / p.initialBalance)) := by
      unfold rewardCalc
      rw [if_neg (by simp [htgt]), if_neg hinit]
    rw [hr]
    exact ⟨_, rfl, rfl⟩
  · intro equityVal
    unfold infoDrawdown
    rw [if_neg (by norm_num)]
  · intro p prices s a r hok hple
    unfold step at hok
    by_cases hd : p.dataLength - 1 ≤ s.currentStep
    · rw [if_pos hd] at hok
      cases hok
      exact Or.inl rfl
    · rw [if_neg hd] at hok
      cases hh : holdingUpdate s.position s.equity (prices s.currentStep)
          (prices (s.currentStep + 1)) with
      | error e => rw [hh] at hok; cases hok
      | ok equityAfterReturn =>
          rw [hh] at hok
          cases hok
          simp only at hple
          right
          simp only
          congr 1
          unfold infoDrawdown
          rw [if_neg (by simp only [not_lt]; exact hple)]

/-- Witness for C8: a held position at zero price fails fast, a
zero-to-long move at zero price returns normally with a non-finite
reward, the all-flat case returns a finite reward, and the zero-peak
drawdown is reported as 0. -/
theorem c8_witness :
    step ⟨1000, 1/1000, 10⟩ zeroPrices ⟨0, 1, 1000, 1000, 0, 0⟩ 1 =
      .error .divisionByZero ∧
    (∃ r, step ⟨1000, 1/1000, 10⟩ zeroPrices stateA 1 = .ok r ∧
       r.reward = .nonfin) ∧
    (∃ r, step ⟨1000, 1/1000, 10⟩ zeroPrices stateA 0 = .ok r ∧
       r.reward = .fin (-(tradeFeeOf ⟨1000, 1/1000, 10⟩ zeroPrices stateA 0 / 1000))) ∧
    infoDrawdown 0 555 = 0 := by
  refine ⟨?_, ?_, ?_, c8_amended.2.2.2.1 555⟩
  · exact c8_amended.1 ⟨1000, 1/1000, 10⟩ zeroPrices ⟨0, 1, 1000, 1000, 0, 0⟩ 1
      (by norm_num) rfl (by norm_num)
  · exact c8_amended.2.1 ⟨1000, 1/1000, 10⟩ zeroPrices stateA 1
      (by norm_num [stateA]) rfl (by norm_num [stateA]) (by norm_num [clip])
  · exact c8_amended.2.2.1 ⟨1000, 1/1000, 10⟩ zeroPrices stateA 0
      (by norm_num [stateA]) rfl (by norm_num [stateA]) (by norm_num [clip])
      (by norm_num)

/-- Claim C9: with a positive initial balance, any step whose resulting
equity is zero or negative reports `terminated = true` — equity never
goes non-positive on a step that signals no termination. -/
theorem c9_nonpositive_equity_terminates (p : EnvParams) (prices : Nat → ℚ)
    (s : EnvState) (a : ℚ) (r : StepResult)
    (hb : 0 < p.initialBalance)
    (hok : step p prices s a = .ok r)
    (hneg : r.state.equity ≤ 0) :
    r.terminated = true := by
  unfold step at hok
  by_cases hd : p.dataLength - 1 ≤ s.currentStep
  · rw [if_pos hd] at hok
    cases hok
    rfl
  · rw [if_neg hd] at hok
    cases hh : holdingUpdate s.position s.equity (prices s.currentStep)
        (prices (s.currentStep + 1)) with
    | error e => rw [hh] at hok; cases hok
    | ok equityAfterReturn =>
        rw [hh] at hok
        cases hok
        simp only at hneg
        unfold terminatedFlag
        rw [decide_eq_true_eq]
        right
        have hpos : (0 : ℚ) < p.initialBalance * (1/10) := by positivity
        linarith

/-- Witness for C9: a price collapse from 100 to 0 wipes the equity of a
fully long state to 0 and the same step reports termination. -/
theorem c9_witness :
    ∃ r, step ⟨1000, 1/1000, 10⟩ (fun i => if i ≤ 3 then (100 : ℚ) else 0)
        ⟨3, 1, 1000, 1000, 0, 0⟩ 1 = .ok r ∧ r.state.equity ≤ 0 ∧
      r.terminated = true := by
  have hok : step ⟨1000, 1/1000, 10⟩ (fun i => if i ≤ 3 then (100 : ℚ) else 0)
      ⟨3, 1, 1000, 1000, 0, 0⟩ 1 =
      .ok ⟨.fin (-1 - 0), true, false, some 1, ⟨4, 1, 0, 1000, 0, 0⟩⟩ := by
    norm_num [step, holdingUpdate, rewardCalc, tradeFeeOf, positionChangeOf,
      peakAfter, terminatedFlag, infoDrawdown, maxDrawdownAllowed, clip, absQ]
  refine ⟨_, hok, by norm_num, ?_⟩
  exact c9_nonpositive_equity_terminates _ _ _ _ _ (by norm_num) hok (by norm_num)

/-- Claim C10: a step entered with the data already exhausted returns
reward 0, `terminated = true`, `truncated = false`, and every state
field unchanged. -/
theorem c10_exhausted_frame (p : EnvParams) (prices : Nat → ℚ) (s : EnvState)
    (a : ℚ) (h : p.dataLength - 1 ≤ s.currentStep) :
    step p prices s a = .ok ⟨.fin 0, true, false, none, s⟩ := by
  unfold step
  rw [if_pos h]

/-- Witness for C10: an exhausted step at cursor 9 of a 5-row dataset
leaves the state `⟨9, 1/2, 777, 900, 3, 2⟩` untouched. -/
theorem c10_witness :
    step ⟨1000, 1/1000, 5⟩ pricesA ⟨9, 1/2, 777, 900, 3, 2⟩ 1 =
      .ok ⟨.fin 0, true, false, none, ⟨9, 1/2, 777, 900, 3, 2⟩⟩ :=
  c10_exhausted_frame ⟨1000, 1/1000, 5⟩ pricesA ⟨9, 1/2, 777, 900, 3, 2⟩ 1
    (by decide)

end DrlBtc
